import Mathlib

/-!
Shallow embedding of the client-side data-window management subsystem of the
React-Table-Large_Data repository: the range tracker and eviction logic of the
`dataGrid` Redux slice, the visible-column projection, the virtual-scroll
windowing hook, the row-spanning (group/span) hook, and the per-scope request
cancellation discipline of the api service.  JS numbers that hold row counts
and offsets are modelled as `Int` (they are integers in the source), pixel
quantities as `ℚ`, JS `null` as `Cell.null` and JS `undefined` cell reads as
`Option.none` where the distinction is observable (`data[r]?.[c]`), otherwise
as `Cell.null`.
-/

namespace DataGrid

/-- A scalar cell of the row buffer: string, number, or null.
Numbers are modelled as integers; the claims under study only compare cells
for (in)equality. -/
inductive Cell
  | str (s : String)
  | num (n : Int)
  | null
  deriving DecidableEq, Repr

abbrev Row := List Cell

/-- A loaded range `{start, end}` of the slice state.  The JS field `end` is a
Lean keyword, so it is named `stop` here. -/
structure Rg where
  start : Int
  stop : Int
  deriving DecidableEq, Repr

/-- Embedding of `isRangeLoaded(ranges, offset, limit)`:
`ranges.some(range => range.start <= offset && range.end >= requestEnd)`. -/
def isRangeLoaded (ranges : List Rg) (offset limit : Int) : Bool :=
  let requestEnd := offset + limit
  ranges.any fun range => decide (range.start ≤ offset) && decide (requestEnd ≤ range.stop)

/-- The comparator `(a, b) => a.start - b.start` of the JS stable sort. -/
def rgLE (a b : Rg) : Prop := a.start ≤ b.start

instance : DecidableRel rgLE := fun a b => inferInstanceAs (Decidable (a.start ≤ b.start))

instance : IsTotal Rg rgLE := ⟨fun a b => le_total a.start b.start⟩

instance : IsTrans Rg rgLE := ⟨fun _ _ _ h1 h2 => le_trans h1 h2⟩

/-- `[...ranges].sort((a, b) => a.start - b.start)`: a stable sort of the
ranges by ascending `start`, modelled by insertion sort (stable). -/
def sortRanges (ranges : List Rg) : List Rg :=
  List.insertionSort rgLE ranges

/-- The merge loop of `mergeRanges`: walks the sorted list keeping the last
merged range; folds `current` into it when `current.start <= last.end + 1`,
extending `last.end = Math.max(last.end, current.end)`. -/
def mergeLoop (last : Rg) : List Rg → List Rg
  | [] => [last]
  | current :: rest =>
    if current.start ≤ last.stop + 1 then
      mergeLoop ⟨last.start, max last.stop current.stop⟩ rest
    else
      last :: mergeLoop current rest

/-- Embedding of `mergeRanges(ranges)` (src/unnamed/part_009, lines 93-111). -/
def mergeRanges (ranges : List Rg) : List Rg :=
  match sortRanges ranges with
  | [] => []
  | h :: t => mergeLoop h t

/-- Spec-side predicate: offset `i` is covered by the union of a list of
ranges, each read as the half-open interval `[start, end)`. -/
def unionCovers (ranges : List Rg) (i : Int) : Bool :=
  ranges.any fun r => decide (r.start ≤ i) && decide (i < r.stop)

/-- JS `Array.prototype.indexOf` on a string array: index of the first
occurrence, `-1` when absent. -/
def jsIndexOf (l : List String) (x : String) : Int :=
  match l with
  | [] => -1
  | y :: ys =>
    if y = x then 0
    else
      let r := jsIndexOf ys x
      if r = -1 then -1 else r + 1

/-- JS `row[idx]` for a cell row; out-of-bounds reads (undefined) are
collapsed to `null` — the indices used by the slice always come from
`indexOf` hits, so the collapse is unobservable there. -/
def getCell (row : Row) (idx : Int) : Cell :=
  if idx < 0 then Cell.null else row.getD idx.toNat Cell.null

/-- Embedding of `filterVisibleData(allColumns, allData, selectedDimensions,
selectedMetrics)` (src/unnamed/part_009, lines 116-142).  Returns
`(visibleColumns, visibleData, columnIndices)`. -/
def filterVisibleData (allColumns : List String) (allData : List Row)
    (selectedDimensions selectedMetrics : List String) :
    List String × List Row × List Int :=
  let visibleCols := selectedDimensions ++ selectedMetrics
  let columnIndices := (visibleCols.map (jsIndexOf allColumns)).filter (· ≠ -1)
  let visibleData := allData.map fun row => columnIndices.map (getCell row)
  let visibleColumns := columnIndices.map fun idx => allColumns.getD idx.toNat ""
  (visibleColumns, visibleData, columnIndices)

/-- The part of the slice's `metadata` that the thunks consume: the list of
metric names (`metadata.metrics.map(m => m.name)`). -/
structure MetaData where
  metrics : List String
  deriving DecidableEq, Repr

/-- The fields of the `dataGrid` slice state (interface `PrefetchState`) that
the claims under study touch.  Request-configuration fields that only feed
the outgoing HTTP payload (`filters`, `sort`, `searchText`, `comparison`) and
bookkeeping never read by the studied reducers (`lastScrollPosition`,
`currentQueryId`, `cached`, `queryTimeMs`, `visibleColumns`,
`visibleColumnTypes`) are omitted: the server response is abstracted as an
explicit parameter. -/
structure GridState where
  selectedDimensions : List String
  selectedMetrics : List String
  isLoading : Bool
  error : Option String
  metadata : Option MetaData
  columns : List String
  columnTypes : List String
  data : List Row
  totalRows : Int
  allColumns : List String
  allColumnTypes : List String
  allData : List Row
  visibleColumns : List String
  loadedRanges : List Rg
  isPrefetching : Bool
  needsDataRefresh : Bool
  deriving DecidableEq, Repr

/-- The `initialState` of the slice (src/unnamed/part_009, lines 44-76),
restricted to the modelled fields. -/
def initialState : GridState where
  selectedDimensions := ["master_brand_id"]
  selectedMetrics := ["ads_spend", "ads_sale", "gross_sale"]
  isLoading := false
  error := none
  metadata := none
  columns := []
  columnTypes := []
  data := []
  totalRows := 0
  allColumns := []
  allColumnTypes := []
  allData := []
  visibleColumns := []
  loadedRanges := []
  isPrefetching := false
  needsDataRefresh := true

/-- `BATCH_SIZE = 2000`. -/
def BATCH_SIZE : Int := 2000

/-- `MAX_CACHED_ROWS = 10000`. -/
def MAX_CACHED_ROWS : Nat := 10000

/-- The recomputation of `state.columnTypes` performed by the reducers:
`visibleColumns.map(col => idx >= 0 ? allColumnTypes[idx] : 'varchar')`. -/
def recomputeColumnTypes (allColumns allColumnTypes visibleColumns : List String) :
    List String :=
  visibleColumns.map fun col =>
    let idx := jsIndexOf allColumns col
    if 0 ≤ idx then allColumnTypes.getD idx.toNat "varchar" else "varchar"

/-- The shared tail of the `setSelectedMetrics` / `toggleMetric` reducers:
when `allData` is non-empty, refilter the visible projection. -/
def refilterVisible (s : GridState) : GridState :=
  if s.allData.length > 0 then
    let f := filterVisibleData s.allColumns s.allData s.selectedDimensions s.selectedMetrics
    { s with
      columns := f.1
      data := f.2.1
      columnTypes := recomputeColumnTypes s.allColumns s.allColumnTypes f.1 }
  else s

/-- Reducer `setSelectedMetrics` (src/unnamed/part_009, lines 272-289). -/
def setSelectedMetrics (s : GridState) (metrics : List String) : GridState :=
  refilterVisible { s with selectedMetrics := metrics }

/-- Reducer `toggleMetric` (src/unnamed/part_009, lines 290-312):
`splice(indexOf(m), 1)` removes the first occurrence, `push` appends. -/
def toggleMetric (s : GridState) (m : String) : GridState :=
  let metrics :=
    if s.selectedMetrics.contains m then s.selectedMetrics.erase m
    else s.selectedMetrics ++ [m]
  refilterVisible { s with selectedMetrics := metrics }

/-- Dispatching `setSelectedMetrics` runs only the pure reducer; the second
component counts invocations of the query-execution collaborator
(`dataService.queryRaw`), of which the reducer contains none. -/
def dispatchSetSelectedMetrics (s : GridState) (metrics : List String) :
    GridState × Nat :=
  (setSelectedMetrics s metrics, 0)

/-- Dispatching `toggleMetric`; second component as in
`dispatchSetSelectedMetrics`. -/
def dispatchToggleMetric (s : GridState) (m : String) : GridState × Nat :=
  (toggleMetric s m, 0)

/-- A columnar query response, as consumed by `fetchDataRange.fulfilled`. -/
structure FetchResponse where
  data : List Row
  totalRows : Int
  deriving DecidableEq, Repr

/-- The eviction block of `fetchDataRange.fulfilled` (src/unnamed/part_009,
lines 470-491), applied when `allData.length > MAX_CACHED_ROWS`. -/
def evict (s : GridState) : GridState :=
  let excessRows : Nat := s.allData.length - MAX_CACHED_ROWS
  let allData := s.allData.drop excessRows
  let filtered := filterVisibleData s.allColumns allData s.selectedDimensions s.selectedMetrics
  { s with
    allData := allData
    data := filtered.2.1
    loadedRanges :=
      (s.loadedRanges.map fun range =>
        ⟨max 0 (range.start - (excessRows : Int)), max 0 (range.stop - (excessRows : Int))⟩).filter
        fun range => range.start < range.stop }

/-- The `fetchDataRange.fulfilled` reducer for a non-null payload
(src/unnamed/part_009, lines 436-493): clear the flag, append the rows,
refilter, push and merge the requested range, update `totalRows`, then evict
if the cache grew beyond `MAX_CACHED_ROWS`. -/
def applyRangeFulfilled (s : GridState) (offset : Int) (isPf : Bool)
    (resp : FetchResponse) : GridState :=
  let s := if isPf then { s with isPrefetching := false } else { s with isLoading := false }
  let newData := resp.data
  let allData := s.allData ++ newData
  let f := filterVisibleData s.allColumns allData s.selectedDimensions s.selectedMetrics
  let s := { s with
    allData := allData
    columns := f.1
    data := f.2.1
    columnTypes := recomputeColumnTypes s.allColumns s.allColumnTypes f.1
    loadedRanges := mergeRanges (s.loadedRanges ++ [⟨offset, offset + (newData.length : Int)⟩])
    totalRows := resp.totalRows }
  if s.allData.length > MAX_CACHED_ROWS then evict s else s

/-- The `fetchDataRange.rejected` reducer (src/unnamed/part_009, lines
495-502): clears both flags; a non-cancelled message is only logged — the
`error` field is never written. -/
def applyRangeRejected (s : GridState) (_msg : Option String) : GridState :=
  { s with isPrefetching := false, isLoading := false }

/-- The `fetchInitialData.rejected` reducer (src/unnamed/part_009, lines
413-420): clears the flags and surfaces the message as `error` unless it is
`'Request cancelled'`. -/
def applyInitialRejected (s : GridState) (msg : Option String) : GridState :=
  let s := { s with isLoading := false, needsDataRefresh := false }
  if msg ≠ some "Request cancelled" then
    { s with error := some (msg.getD "Failed to fetch data") }
  else s

/-- Dispatching `fetchDataRange(offset, limit, isPrefetch)` end to end:
the `pending` reducer runs first, then the payload creator either throws
(no metadata), skips (range already loaded — resolving with a `null` payload,
whose `fulfilled` branch resets only `isPrefetching`), or performs the fetch
and applies the full `fulfilled` reducer to the response.  The second
component counts invocations of `dataService.queryRaw`. -/
def requestRange (s : GridState) (offset limit : Int) (isPf : Bool)
    (resp : FetchResponse) : GridState × Nat :=
  let s1 := if isPf then { s with isPrefetching := true } else { s with isLoading := true }
  match s1.metadata with
  | none => (applyRangeRejected s1 (some "Metadata not loaded"), 0)
  | some _ =>
    if isRangeLoaded s1.loadedRanges offset limit then
      ({ s1 with isPrefetching := false }, 0)
    else
      (applyRangeFulfilled s1 offset isPf resp, 1)

/-! ### Windowing engine (`useVirtualScroll`, src/unnamed/part_006) -/

/-- The visible-range computation of `useVirtualScroll` (lines 33-43):
`start = Math.max(0, Math.floor(scrollTop / rowHeight) - overscan)`,
`end = Math.min(totalRows, Math.ceil((scrollTop + containerHeight) / rowHeight) + overscan)`.
Pixel quantities are rationals; indices and counts are integers. -/
def computeWindow (scrollTop containerHeight rowHeight : ℚ) (totalRows overscan : Int) :
    Int × Int :=
  (max 0 (⌊scrollTop / rowHeight⌋ - overscan),
   min totalRows (⌈(scrollTop + containerHeight) / rowHeight⌉ + overscan))

/-- Row `i` occupies the pixel span `[i*rowHeight, (i+1)*rowHeight)`; it
intersects the viewport `[scrollTop, scrollTop + containerHeight)` iff both
half-open intervals overlap. -/
def rowIntersectsViewport (scrollTop containerHeight rowHeight : ℚ) (i : Int) : Prop :=
  (i : ℚ) * rowHeight < scrollTop + containerHeight ∧ scrollTop < ((i : ℚ) + 1) * rowHeight

/-- State of the rAF-throttled scroll handler of `useVirtualScroll` (lines
29-30, 51-60): the committed `scrollTop` React state, the `tickingRef` flag,
and the scroll value captured by the queued `requestAnimationFrame` callback
(if one is queued). -/
structure ScrollThrottle where
  scrollTop : ℚ
  ticking : Bool
  pending : Option ℚ
  deriving DecidableEq

/-- An event at the scroll handler: a scroll event delivering a new
`scrollTop`, or the firing of the queued animation frame. -/
inductive ScrollEv
  | scroll (v : ℚ)
  | frame
  deriving DecidableEq

/-- One step of the handler.  `handleScroll(newScrollTop)` queues a frame
callback capturing `newScrollTop` only when `tickingRef.current` is false;
otherwise the event is dropped.  When the frame fires, the captured value is
committed and the flag cleared. -/
def scrollStep (st : ScrollThrottle) : ScrollEv → ScrollThrottle
  | .scroll v => if st.ticking then st else { st with ticking := true, pending := some v }
  | .frame =>
    match st.pending with
    | some v => { scrollTop := v, ticking := false, pending := none }
    | none => st

/-- Run a sequence of scroll/frame events from a state. -/
def scrollRun (st : ScrollThrottle) (evs : List ScrollEv) : ScrollThrottle :=
  evs.foldl scrollStep st

/-- The initial handler state: `useState(0)`, `tickingRef = false`. -/
def scrollInit : ScrollThrottle := ⟨0, false, none⟩

/-! ### Row-spanning hook (`useRowSpanning`, src/unnamed/part_004, first
implementation: parent-aware grouping with the `SPANNING_COLUMNS`
allow-list) -/

/-- The grouping-column allow-list. -/
def SPANNING_COLUMNS : List String :=
  ["principal_category", "main_category", "category", "sub_category"]

/-- ASCII lowercasing of one character (column names are ASCII
identifiers). -/
def lowerChar (c : Char) : Char :=
  if 'A' ≤ c ∧ c ≤ 'Z' then Char.ofNat (c.toNat + 32) else c

/-- `name.toLowerCase()` for ASCII column names, built on the character list
so that it evaluates inside the kernel. -/
def jsToLower (s : String) : String := ⟨s.data.map lowerChar⟩

/-- `spanningColIndices` (lines 38-46): indices of columns whose lowercased
name is in the allow-list and which lie left of `dimensionCount`.  The JS
`Set` is filled by ascending index, so iteration order is ascending. -/
def spanningColIndices (columnNames : List String) (dimensionCount : Nat) : List Nat :=
  (List.range columnNames.length).filter fun i =>
    SPANNING_COLUMNS.contains (jsToLower (columnNames.getD i "")) &&
      decide (i < dimensionCount)

/-- `data[r]?.[c]` — `none` models JS `undefined` (row or cell absent). -/
def cellOpt (data : List Row) (r c : Nat) : Option Cell :=
  match data.get? r with
  | none => none
  | some row => row.get? c

/-- `checkPrevSpanningColumnsMatch(data, row1, row2, upToCol, spanningColIndices)`
(lines 157-172): every spanning column strictly left of `upToCol` holds
equal cells in the two rows. -/
def checkPrevSpanningColumnsMatch (data : List Row) (row1 row2 upToCol : Nat)
    (spanning : List Nat) : Bool :=
  (List.range upToCol).all fun c =>
    if spanning.contains c then decide (cellOpt data row1 c = cellOpt data row2 c) else true

/-- The group entry `{value, startRow, rowCount}` stored per row; `value` is
an `Option Cell` because `data[0]?.[colIndex]` can be JS `undefined`. -/
structure GroupInfo where
  value : Option Cell
  startRow : Nat
  rowCount : Nat
  deriving DecidableEq, Repr

/-- The scan loop shared (token for token) by the `groupMap` and `spanMap`
`useMemo`s of `useRowSpanning` (lines 57-84 and 98-121), for one spanning
column `c`, returned as its list of runs `(groupStart, rowCount,
currentValue)` in scan order.  State: `rowIndex` (the loop counter, running
from 1 to `data.length` inclusive — `fuel` counts the remaining iterations),
`groupStart` and `currentValue`.  The loop body computes
`value = rowIndex < len ? data[rowIndex]?.[c] : null` and breaks the run when
`value !== currentValue || !prevColumnsMatch || rowIndex === len`. -/
def runsAux (data : List Row) (spanning : List Nat) (c : Nat) :
    Nat → Nat → Nat → Option Cell → List (Nat × Nat × Option Cell)
  | 0, _, _, _ => []
  | fuel + 1, rowIndex, groupStart, currentValue =>
    let len := data.length
    let value := if rowIndex < len then cellOpt data rowIndex c else some Cell.null
    let prevColumnsMatch := checkPrevSpanningColumnsMatch data groupStart rowIndex c spanning
    if value ≠ currentValue ∨ prevColumnsMatch = false ∨ rowIndex = len then
      (groupStart, rowIndex - groupStart, currentValue) ::
        runsAux data spanning c fuel (rowIndex + 1) rowIndex value
    else
      runsAux data spanning c fuel (rowIndex + 1) groupStart currentValue

/-- The runs found for column `c`: the loop initialises
`groupStart = 0, currentValue = data[0]?.[c]` and iterates `rowIndex` from 1
to `data.length`; an empty buffer yields no runs (outer guard). -/
def runsOf (data : List Row) (spanning : List Nat) (c : Nat) :
    List (Nat × Nat × Option Cell) :=
  if data.length = 0 then []
  else runsAux data spanning c data.length 1 0 (cellOpt data 0 c)

/-- The `groupMap` entries for column `c`: every row of a run is mapped to
the run's `{value, startRow, rowCount}` (lines 72-79). -/
def groupEntriesCol (data : List Row) (spanning : List Nat) (c : Nat) :
    List (Nat × GroupInfo) :=
  (runsOf data spanning c).flatMap fun t =>
    (List.range' t.1 t.2.1).map fun r => (r, ⟨t.2.2, t.1, t.2.1⟩)

/-- `groupMap.get(` the key `r-c` `)`, i.e. the hook's `getGroupInfo`:
`none` unless the overall guard passes and `c` is a spanning column. -/
def getGroupInfo (data : List Row) (columnNames : List String)
    (dimensionCount : Nat) (r c : Nat) : Option GroupInfo :=
  let spanning := spanningColIndices columnNames dimensionCount
  if data.length = 0 ∨ spanning = [] then none
  else if spanning.contains c then (groupEntriesCol data spanning c).lookup r
  else none

/-- The `spanMap` entries for column `c`: a `{rowIndex, colIndex, span}`
entry at key `spanStart-c`, recorded only when `span > 1` (lines 108-119);
represented as `(startRow, span)` pairs. -/
def spanEntriesCol (data : List Row) (spanning : List Nat) (c : Nat) :
    List (Nat × Nat) :=
  (runsOf data spanning c).filterMap fun t =>
    if t.2.1 > 1 then some (t.1, t.2.1) else none

/-- The whole `spanMap`, keyed `(startRow, colIndex)`. -/
def spanMapEntries (data : List Row) (columnNames : List String)
    (dimensionCount : Nat) : List ((Nat × Nat) × Nat) :=
  let spanning := spanningColIndices columnNames dimensionCount
  if data.length = 0 ∨ spanning = [] then []
  else spanning.flatMap fun c =>
    (spanEntriesCol data spanning c).map fun t => ((t.1, c), t.2)

/-- Spec-side relation: rows `r1` and `r2` agree in spanning column `c` and
in every spanning column left of `c` (the key of a parent-aware run). -/
def SameKey (data : List Row) (spanning : List Nat) (c : Nat) (r1 r2 : Nat) : Prop :=
  cellOpt data r1 c = cellOpt data r2 c ∧
    ∀ cp ∈ spanning, cp < c → cellOpt data r1 cp = cellOpt data r2 cp

/-- A run list partitions the row interval `[s, len)`: each entry
`(startRow, rowCount, value)` starts where the previous one ended, has at
least one row, and the last one ends at `len`. -/
inductive RunsPartition (len : Nat) : Nat → List (Nat × Nat × Option Cell) → Prop
  | nil : RunsPartition len len []
  | cons {s n : Nat} {v : Option Cell} {rest : List (Nat × Nat × Option Cell)} :
      1 ≤ n → RunsPartition len (s + n) rest →
      RunsPartition len s ((s, n, v) :: rest)

/-! ### Request cancellation scopes (`dataService`, src/unnamed/part_001) -/

/-- The three module-level `AbortController` slots of the api service. -/
inductive Scope
  | initialQ
  | prefetch
  | search
  deriving DecidableEq, Repr

/-- State of the api-service cancellation discipline: the id the next request
will get, the id currently held by each scope's controller slot, which ids
have been issued (with their scope), which aborted, and which responses have
been applied (in application order). -/
structure SvcState where
  nextId : Nat
  curInitialQ : Option Nat
  curPrefetch : Option Nat
  curSearch : Option Nat
  issued : List (Nat × Scope)
  aborted : List Nat
  applied : List Nat
  deriving DecidableEq, Repr

/-- The controller slot of a scope. -/
def SvcState.cur (st : SvcState) : Scope → Option Nat
  | .initialQ => st.curInitialQ
  | .prefetch => st.curPrefetch
  | .search => st.curSearch

/-- Replace the controller slot of a scope. -/
def SvcState.setCur (st : SvcState) : Scope → Option Nat → SvcState
  | .initialQ, v => { st with curInitialQ := v }
  | .prefetch, v => { st with curPrefetch := v }
  | .search, v => { st with curSearch := v }

/-- Starting a request of a scope (`queryRaw` / `search`): abort the previous
controller of that scope if any, install a fresh controller, issue the
request. -/
def startReq (st : SvcState) (sc : Scope) : SvcState :=
  let st :=
    match st.cur sc with
    | some j => { st with aborted := st.aborted ++ [j] }
    | none => st
  let st := st.setCur sc (some st.nextId)
  { st with issued := st.issued ++ [(st.nextId, sc)], nextId := st.nextId + 1 }

/-- A response arriving for request `i`: if the request was issued and its
controller was never aborted it resolves and its result is applied; an
aborted request surfaces as `'Request cancelled'` and is discarded. -/
def completeReq (st : SvcState) (i : Nat) : SvcState :=
  if (st.issued.any fun t => t.1 = i) && !(st.aborted.contains i) then
    { st with applied := st.applied ++ [i] }
  else st

/-- An event at the api service. -/
inductive SvcEv
  | start (sc : Scope)
  | complete (i : Nat)
  deriving DecidableEq, Repr

/-- One api-service step. -/
def svcStep (st : SvcState) : SvcEv → SvcState
  | .start sc => startReq st sc
  | .complete i => completeReq st i

/-- Run a sequence of api-service events. -/
def svcRun (st : SvcState) (evs : List SvcEv) : SvcState :=
  evs.foldl svcStep st

/-- The initial api-service state: all three controller slots empty. -/
def svcInit : SvcState := ⟨0, none, none, none, [], [], []⟩

/-- A concrete slice state with metadata loaded and rows `[0,10)` tracked as
loaded, used to exercise the skip path of `requestRange`. -/
def c2State : GridState :=
  { initialState with metadata := some ⟨[]⟩, loadedRanges := [⟨0, 10⟩] }

/-- The spec's parent/child nesting example: rows `[["A","X"],["A","Y"],
["B","X"]]` over two groupable columns. -/
def c4Data : List Row :=
  [[Cell.str "A", Cell.str "X"], [Cell.str "A", Cell.str "Y"],
   [Cell.str "B", Cell.str "X"]]

/-- Column names for the nesting example — both in the allow-list. -/
def c4Cols : List String := ["category", "sub_category"]

/-- A concrete slice state with one fetched row over columns `d`, `m1`. -/
def c6State : GridState :=
  { initialState with
    allData := [[Cell.num 1, Cell.num 2]]
    allColumns := ["d", "m1"]
    allColumnTypes := ["varchar", "bigint"]
    selectedDimensions := ["d"]
    selectedMetrics := []
    loadedRanges := [⟨0, 1⟩]
    totalRows := 1 }

/-! ## Theorems -/

/-- `jsIndexOf` either misses (`-1`, name absent) or hits the first index of
the name. -/
theorem jsIndexOf_spec (l : List String) (x : String) :
    (x ∉ l ∧ jsIndexOf l x = -1) ∨
    (x ∈ l ∧ 0 ≤ jsIndexOf l x ∧ l.getD (jsIndexOf l x).toNat "" = x) := by
  induction l with
  | nil => left; simp [jsIndexOf]
  | cons y ys ih =>
    by_cases hyx : y = x
    · right
      subst hyx
      refine ⟨List.mem_cons_self _ _, ?_⟩
      simp [jsIndexOf]
    · rcases ih with ⟨hnm, hneg⟩ | ⟨hm, hpos, hget⟩
      · left
        constructor
        · intro hmem
          rcases List.mem_cons.mp hmem with hh | hh
          · exact hyx hh.symm
          · exact hnm hh
        · simp [jsIndexOf, hyx, hneg]
      · right
        have hr : jsIndexOf (y :: ys) x = jsIndexOf ys x + 1 := by
          have : jsIndexOf ys x ≠ -1 := by omega
          simp [jsIndexOf, hyx, this]
        have htn : (jsIndexOf ys x + 1).toNat = (jsIndexOf ys x).toNat + 1 := by omega
        refine ⟨List.mem_cons_of_mem _ hm, ?_, ?_⟩
        · omega
        · rw [hr, htn]
          simpa using hget

/-- The visible-column list produced by `filterVisibleData` is the requested
name list restricted to names present in `allColumns`, in order. -/
theorem visibleColumns_eq_filter (allCols names : List String) :
    ((names.map (jsIndexOf allCols)).filter (· ≠ -1)).map
        (fun idx => allCols.getD idx.toNat "") =
      names.filter (fun c => allCols.contains c) := by
  induction names with
  | nil => rfl
  | cons n ns ih =>
    rcases jsIndexOf_spec allCols n with ⟨hnm, hneg⟩ | ⟨hm, hpos, hget⟩
    · simp only [List.map_cons, List.filter_cons, hneg]
      simp only [show ¬((-1 : Int) ≠ -1) from fun hc => hc rfl, decide_False,
        Bool.false_eq_true, if_false]
      simp [hnm]
      simpa using ih
    · have hne : jsIndexOf allCols n ≠ -1 := by omega
      simp only [List.map_cons, List.filter_cons]
      simp only [hne, decide_not, decide_False, Bool.not_false, if_true]
      simp [hm]
      refine ⟨by simpa using hget, by simpa using ih⟩

/-- The per-row cell selection of `filterVisibleData` equals looking up, for
each visible column name, its first index in `allColumns`. -/
theorem visibleRow_eq_lookup (allCols names : List String) (row : Row) :
    ((names.map (jsIndexOf allCols)).filter (· ≠ -1)).map (getCell row) =
      (names.filter (fun c => allCols.contains c)).map
        (fun c => getCell row (jsIndexOf allCols c)) := by
  induction names with
  | nil => rfl
  | cons n ns ih =>
    rcases jsIndexOf_spec allCols n with ⟨hnm, hneg⟩ | ⟨hm, hpos, hget⟩
    · simp only [List.map_cons, List.filter_cons, hneg]
      simp only [show ¬((-1 : Int) ≠ -1) from fun hc => hc rfl, decide_False,
        Bool.false_eq_true, if_false]
      simp [hnm]
      simpa using ih
    · have hne : jsIndexOf allCols n ≠ -1 := by omega
      simp only [List.map_cons, List.filter_cons]
      simp only [hne, decide_not, decide_False, Bool.not_false, if_true]
      simp [hm]
      simpa using ih

/-- C8 (amended): an initial-fetch rejection updates `error` exactly when the
cause is not `'Request cancelled'`; a range-fetch rejection never updates
`error` (real failures are only logged); and no rejection modifies the
buffer, the loaded ranges, the visible data, or `totalRows`. -/
theorem C8_rejected_amended (s : GridState) (msg : Option String) :
    (applyInitialRejected s msg).error =
      (if msg = some "Request cancelled" then s.error
       else some (msg.getD "Failed to fetch data")) ∧
    (applyRangeRejected s msg).error = s.error ∧
    (applyInitialRejected s msg).allData = s.allData ∧
    (applyInitialRejected s msg).loadedRanges = s.loadedRanges ∧
    (applyInitialRejected s msg).data = s.data ∧
    (applyInitialRejected s msg).totalRows = s.totalRows ∧
    (applyRangeRejected s msg).allData = s.allData ∧
    (applyRangeRejected s msg).loadedRanges = s.loadedRanges ∧
    (applyRangeRejected s msg).data = s.data ∧
    (applyRangeRejected s msg).totalRows = s.totalRows := by
  by_cases h : msg = some "Request cancelled" <;>
    simp [applyInitialRejected, applyRangeRejected, h]

/-- C6: dispatching `setSelectedMetrics` (and `toggleMetric`) on a state with
a non-empty buffer never invokes the query-execution collaborator and only
re-projects: `allData`, `loadedRanges` and `totalRows` are unchanged, the
visible columns become the selected dimensions followed by the selected
metrics restricted to fetched column names, and the visible data is the
corresponding column slice of every buffered row. -/
theorem C6_metric_toggle_pure (s : GridState) (ms : List String) (m : String)
    (h : s.allData ≠ []) :
    (dispatchSetSelectedMetrics s ms).2 = 0 ∧
    (dispatchSetSelectedMetrics s ms).1.allData = s.allData ∧
    (dispatchSetSelectedMetrics s ms).1.loadedRanges = s.loadedRanges ∧
    (dispatchSetSelectedMetrics s ms).1.totalRows = s.totalRows ∧
    (dispatchSetSelectedMetrics s ms).1.columns =
      (s.selectedDimensions ++ ms).filter (fun c => s.allColumns.contains c) ∧
    (dispatchSetSelectedMetrics s ms).1.data =
      s.allData.map (fun row =>
        ((s.selectedDimensions ++ ms).filter (fun c => s.allColumns.contains c)).map
          (fun c => getCell row (jsIndexOf s.allColumns c))) ∧
    (dispatchToggleMetric s m).2 = 0 ∧
    (dispatchToggleMetric s m).1.allData = s.allData ∧
    (dispatchToggleMetric s m).1.loadedRanges = s.loadedRanges ∧
    (dispatchToggleMetric s m).1.totalRows = s.totalRows ∧
    (dispatchToggleMetric s m).1.columns =
      (s.selectedDimensions ++
        (if s.selectedMetrics.contains m then s.selectedMetrics.erase m
         else s.selectedMetrics ++ [m])).filter (fun c => s.allColumns.contains c) := by
  have hlen : s.allData.length > 0 := List.length_pos.mpr h
  refine ⟨rfl, ?_, ?_, ?_, ?_, ?_, rfl, ?_, ?_, ?_, ?_⟩ <;>
    simp only [dispatchSetSelectedMetrics, dispatchToggleMetric, setSelectedMetrics,
      toggleMetric, refilterVisible, filterVisibleData, hlen, if_pos, gt_iff_lt,
      reduceIte] <;>
    first
      | rfl
      | (rw [visibleColumns_eq_filter])
      | (rw [List.map_congr_left]
         intro row _
         rw [visibleRow_eq_lookup])

/-- C6 witness: the projection facts at a concrete one-row state, selecting
metric `m1`. -/
theorem C6_metric_toggle_pure_witness :
    c6State.allData ≠ [] ∧
    ((dispatchSetSelectedMetrics c6State ["m1"]).2 = 0 ∧
    (dispatchSetSelectedMetrics c6State ["m1"]).1.allData = c6State.allData ∧
    (dispatchSetSelectedMetrics c6State ["m1"]).1.loadedRanges = c6State.loadedRanges ∧
    (dispatchSetSelectedMetrics c6State ["m1"]).1.totalRows = c6State.totalRows ∧
    (dispatchSetSelectedMetrics c6State ["m1"]).1.columns =
      (c6State.selectedDimensions ++ ["m1"]).filter
        (fun c => c6State.allColumns.contains c) ∧
    (dispatchSetSelectedMetrics c6State ["m1"]).1.data =
      c6State.allData.map (fun row =>
        ((c6State.selectedDimensions ++ ["m1"]).filter
            (fun c => c6State.allColumns.contains c)).map
          (fun c => getCell row (jsIndexOf c6State.allColumns c))) ∧
    (dispatchToggleMetric c6State "m1").2 = 0 ∧
    (dispatchToggleMetric c6State "m1").1.allData = c6State.allData ∧
    (dispatchToggleMetric c6State "m1").1.loadedRanges = c6State.loadedRanges ∧
    (dispatchToggleMetric c6State "m1").1.totalRows = c6State.totalRows ∧
    (dispatchToggleMetric c6State "m1").1.columns =
      (c6State.selectedDimensions ++
        (if c6State.selectedMetrics.contains "m1" then c6State.selectedMetrics.erase "m1"
         else c6State.selectedMetrics ++ ["m1"])).filter
        (fun c => c6State.allColumns.contains c)) :=
  ⟨by decide, C6_metric_toggle_pure c6State ["m1"] "m1" (by decide)⟩

/-- C1: the merge loop folds `current` into `previous` already when
`current.start ≤ previous.end + 1`, not only when `current.start ≤
previous.end`: with the half-open ranges the slice stores, adding `[0,5)` and
`[6,10)` produces the single range `[0,10)`, and `isLoaded(5,1)` then reports
true although offset 5 is not covered by the union of the added ranges. -/
theorem C1_merge_bridges_gap :
    mergeRanges [⟨0, 5⟩, ⟨6, 10⟩] = [⟨0, 10⟩] ∧
    isRangeLoaded (mergeRanges [⟨0, 5⟩, ⟨6, 10⟩]) 5 1 = true ∧
    unionCovers [⟨0, 5⟩, ⟨6, 10⟩] 5 = false := by
  decide

/-- C2: a non-prefetch `requestRange` on an already-loaded range performs no
fetch (the call count is 0) and leaves buffer, ranges and `totalRows`
untouched, but it is not a state no-op: the `pending` reducer sets
`isLoading`, and the null-payload `fulfilled` branch resets only
`isPrefetching`, so `isLoading` remains true after the dispatch resolves. -/
theorem C2_skip_leaves_isLoading_stuck :
    (requestRange c2State 0 10 false ⟨[], 0⟩).2 = 0 ∧
    c2State.isLoading = false ∧
    (requestRange c2State 0 10 false ⟨[], 0⟩).1.isLoading = true ∧
    (requestRange c2State 0 10 false ⟨[], 0⟩).1.allData = c2State.allData ∧
    (requestRange c2State 0 10 false ⟨[], 0⟩).1.loadedRanges = c2State.loadedRanges ∧
    (requestRange c2State 0 10 false ⟨[], 0⟩).1.totalRows = c2State.totalRows := by
  decide

/-- C3 counterexample: with `scrollTop = 100`, `containerHeight = 50`,
`rowHeight = 10`, `totalRows = 0`, `overscan = 0`, the computed `startIndex`
is 10, not 0 — it is not clamped to `[0, totalRows]`. -/
theorem C3_counterexample :
    (computeWindow 100 50 10 0 0).1 = 10 ∧ ¬(computeWindow 100 50 10 0 0).1 ≤ 0 := by
  norm_num [computeWindow]

/-- C3 (amended): for `rowHeight > 0` and `overscan ≥ 0` the window
`[startIndex, endIndex)` contains every buffer row whose pixel span
intersects the viewport; `startIndex ≥ 0` and `endIndex ≤ totalRows` always,
and `endIndex ≥ 0` for a non-negative scroll position and viewport; within
the buffer the window is exactly the tight bounds `⌊scrollTop/rowHeight⌋`
and `⌈(scrollTop+containerHeight)/rowHeight⌉` padded by `overscan` on each
side; the tight lower bound is itself an intersecting row; and
`startIndex = endIndex = 0` when `totalRows = 0` and `scrollTop = 0`
(but `startIndex` is not clamped to `totalRows` for larger scroll
positions). -/
theorem C3_window_amended (scrollTop containerHeight rowHeight : ℚ)
    (totalRows overscan : Int) (hh : 0 < rowHeight) (hov : 0 ≤ overscan) :
    (∀ i : Int, 0 ≤ i → i < totalRows →
      rowIntersectsViewport scrollTop containerHeight rowHeight i →
      (computeWindow scrollTop containerHeight rowHeight totalRows overscan).1 ≤ i ∧
        i < (computeWindow scrollTop containerHeight rowHeight totalRows overscan).2) ∧
    (0 ≤ (computeWindow scrollTop containerHeight rowHeight totalRows overscan).1 ∧
      (computeWindow scrollTop containerHeight rowHeight totalRows overscan).2 ≤ totalRows) ∧
    (0 ≤ scrollTop → 0 ≤ containerHeight → 0 ≤ totalRows →
      0 ≤ (computeWindow scrollTop containerHeight rowHeight totalRows overscan).2) ∧
    (∀ i : Int, 0 ≤ i → i < totalRows →
      (((computeWindow scrollTop containerHeight rowHeight totalRows overscan).1 ≤ i ∧
          i < (computeWindow scrollTop containerHeight rowHeight totalRows overscan).2) ↔
        (⌊scrollTop / rowHeight⌋ - overscan ≤ i ∧
          i < ⌈(scrollTop + containerHeight) / rowHeight⌉ + overscan))) ∧
    (0 ≤ scrollTop → 0 < containerHeight →
      rowIntersectsViewport scrollTop containerHeight rowHeight
        ⌊scrollTop / rowHeight⌋) ∧
    (scrollTop = 0 → totalRows = 0 → 0 ≤ containerHeight →
      computeWindow scrollTop containerHeight rowHeight totalRows overscan = (0, 0)) := by
  refine ⟨?_, ⟨le_max_left _ _, min_le_left _ _⟩, ?_, ?_, ?_, ?_⟩
  · intro i h0 htr hint
    obtain ⟨hi1, hi2⟩ := hint
    constructor
    · apply max_le h0
      have hfl : ⌊scrollTop / rowHeight⌋ < i + 1 := by
        rw [Int.floor_lt]
        push_cast
        rw [div_lt_iff₀ hh]
        exact hi2
      omega
    · apply lt_min htr
      have hcl : i < ⌈(scrollTop + containerHeight) / rowHeight⌉ := by
        rw [Int.lt_ceil, lt_div_iff₀ hh]
        exact hi1
      omega
  · intro hst hch htr
    refine le_min htr ?_
    have : (0 : Int) ≤ ⌈(scrollTop + containerHeight) / rowHeight⌉ :=
      Int.ceil_nonneg (div_nonneg (add_nonneg hst hch) hh.le)
    omega
  · intro i h0 htr
    simp only [computeWindow, max_le_iff, lt_min_iff]
    constructor
    · rintro ⟨⟨_, hx⟩, _, hy⟩
      exact ⟨hx, hy⟩
    · rintro ⟨hx, hy⟩
      exact ⟨⟨h0, hx⟩, htr, hy⟩
  · intro hst hch
    constructor
    · calc (⌊scrollTop / rowHeight⌋ : ℚ) * rowHeight ≤ scrollTop := by
            rw [← le_div_iff₀ hh]
            exact Int.floor_le _
        _ < scrollTop + containerHeight := by linarith
    · have : scrollTop / rowHeight < ⌊scrollTop / rowHeight⌋ + 1 :=
        Int.lt_floor_add_one _
      rw [div_lt_iff₀ hh] at this
      exact_mod_cast this
  · intro h1 h2 h3
    subst h1 h2
    have hfl : ⌊(0 : ℚ) / rowHeight⌋ = 0 := by
      rw [zero_div, Int.floor_zero]
    have hcl : (0 : Int) ≤ ⌈((0 : ℚ) + containerHeight) / rowHeight⌉ :=
      Int.ceil_nonneg (div_nonneg (by linarith) hh.le)
    simp only [computeWindow, hfl, Prod.mk.injEq]
    constructor
    · omega
    · omega

/-- C3 witness: the amended windowing facts at `scrollTop = 25`,
`containerHeight = 30`, `rowHeight = 10`, `totalRows = 100`,
`overscan = 2`. -/
theorem C3_window_amended_witness :
    (0 : ℚ) < 10 ∧ (0 : Int) ≤ 2 ∧
    ((∀ i : Int, 0 ≤ i → i < 100 →
      rowIntersectsViewport 25 30 10 i →
      (computeWindow 25 30 10 100 2).1 ≤ i ∧ i < (computeWindow 25 30 10 100 2).2) ∧
    (0 ≤ (computeWindow 25 30 10 100 2).1 ∧ (computeWindow 25 30 10 100 2).2 ≤ 100) ∧
    (0 ≤ (25 : ℚ) → 0 ≤ (30 : ℚ) → 0 ≤ (100 : Int) →
      0 ≤ (computeWindow 25 30 10 100 2).2) ∧
    (∀ i : Int, 0 ≤ i → i < 100 →
      (((computeWindow 25 30 10 100 2).1 ≤ i ∧ i < (computeWindow 25 30 10 100 2).2) ↔
        (⌊(25 : ℚ) / 10⌋ - 2 ≤ i ∧ i < ⌈((25 : ℚ) + 30) / 10⌉ + 2))) ∧
    (0 ≤ (25 : ℚ) → 0 < (30 : ℚ) →
      rowIntersectsViewport 25 30 10 ⌊(25 : ℚ) / 10⌋) ∧
    ((25 : ℚ) = 0 → (100 : Int) = 0 → 0 ≤ (30 : ℚ) →
      computeWindow 25 30 10 100 2 = (0, 0))) :=
  ⟨by norm_num, by norm_num,
    C3_window_amended 25 30 10 100 2 (by norm_num) (by norm_num)⟩

/-- C7: two scroll events in the same animation frame are not coalesced into
the latest value — the queued frame callback captured the first value (100),
and the second event (200) is dropped while `tickingRef` is set, so the
window recomputation that fires uses the stale position 100. -/
theorem C7_frame_uses_first_not_latest :
    (scrollRun scrollInit [.scroll 100, .scroll 200, .frame]).scrollTop = 100 ∧
    ¬(scrollRun scrollInit [.scroll 100, .scroll 200, .frame]).scrollTop = 200 := by
  decide

/-- C5: when a completed fetch pushes the buffer past `MAX_CACHED_ROWS`,
exactly `excess = bufferLength - MAX_CACHED_ROWS` rows are dropped from the
front, the buffer ends up at exactly the ceiling with the freshly fetched
rows present at renormalized tail indices, every tracked range is the
excess-shifted clamp of a pre-eviction merged range with empty ranges
dropped, and no remaining range has negative or inverted bounds. -/
theorem C5_eviction (s : GridState) (offset : Int) (isPf : Bool) (resp : FetchResponse)
    (hover : MAX_CACHED_ROWS < s.allData.length + resp.data.length)
    (hfit : resp.data.length ≤ MAX_CACHED_ROWS) :
    (applyRangeFulfilled s offset isPf resp).allData =
      (s.allData ++ resp.data).drop (s.allData.length + resp.data.length - MAX_CACHED_ROWS) ∧
    (applyRangeFulfilled s offset isPf resp).allData.length = MAX_CACHED_ROWS ∧
    (∀ j, j < resp.data.length →
      (applyRangeFulfilled s offset isPf resp).allData.getD
          (MAX_CACHED_ROWS - resp.data.length + j) [] = resp.data.getD j []) ∧
    (applyRangeFulfilled s offset isPf resp).loadedRanges =
      ((mergeRanges (s.loadedRanges ++ [⟨offset, offset + (resp.data.length : Int)⟩])).map
          fun range =>
            ⟨max 0 (range.start - ((s.allData.length + resp.data.length - MAX_CACHED_ROWS : Nat) : Int)),
             max 0 (range.stop - ((s.allData.length + resp.data.length - MAX_CACHED_ROWS : Nat) : Int))⟩).filter
        (fun range => range.start < range.stop) ∧
    (∀ range ∈ (applyRangeFulfilled s offset isPf resp).loadedRanges,
      0 ≤ range.start ∧ range.start < range.stop) := by
  have hguard : ((s.allData ++ resp.data).length > MAX_CACHED_ROWS) := by
    simp only [List.length_append]
    omega
  have hall : (applyRangeFulfilled s offset isPf resp).allData =
      (s.allData ++ resp.data).drop (s.allData.length + resp.data.length - MAX_CACHED_ROWS) := by
    cases isPf <;>
      simp [applyRangeFulfilled, evict, hguard, List.length_append, hover]
  have hranges : (applyRangeFulfilled s offset isPf resp).loadedRanges =
      ((mergeRanges (s.loadedRanges ++ [⟨offset, offset + (resp.data.length : Int)⟩])).map
          fun range =>
            ⟨max 0 (range.start - ((s.allData.length + resp.data.length - MAX_CACHED_ROWS : Nat) : Int)),
             max 0 (range.stop - ((s.allData.length + resp.data.length - MAX_CACHED_ROWS : Nat) : Int))⟩).filter
        (fun range => range.start < range.stop) := by
    cases isPf <;>
      simp [applyRangeFulfilled, evict, hguard, List.length_append, hover]
  refine ⟨hall, ?_, ?_, hranges, ?_⟩
  · rw [hall]
    simp only [List.length_drop, List.length_append]
    omega
  · intro j hj
    rw [hall]
    have h1 : ∀ (L : List Row) (n m : Nat), (L.drop n).getD m [] = L.getD (n + m) [] := by
      intro L n m
      simp [List.getD, List.getElem?_drop]
    rw [h1]
    have h2 : s.allData.length + resp.data.length - MAX_CACHED_ROWS +
        (MAX_CACHED_ROWS - resp.data.length + j) = s.allData.length + j := by
      omega
    rw [h2]
    simp only [List.getD, List.get?_eq_getElem?]
    rw [List.getElem?_append_right (Nat.le_add_right _ _)]
    simp
  · intro range hmem
    rw [hranges] at hmem
    have hlt := List.of_mem_filter hmem
    have hmap := List.mem_of_mem_filter hmem
    rcases List.mem_map.mp hmap with ⟨r0, _, hr0⟩
    subst hr0
    refine ⟨le_max_left _ _, ?_⟩
    simpa using hlt

/-- C5 witness: eviction facts for a 9999-row buffer receiving 2 more rows. -/
theorem C5_eviction_witness :
    (MAX_CACHED_ROWS <
      ({ initialState with
          allData := List.replicate 9999 ([] : Row),
          loadedRanges := [⟨0, 9999⟩] } : GridState).allData.length +
        (⟨[[], []], 10001⟩ : FetchResponse).data.length) ∧
    ((⟨[[], []], 10001⟩ : FetchResponse).data.length ≤ MAX_CACHED_ROWS) ∧
    ((applyRangeFulfilled
        { initialState with
          allData := List.replicate 9999 ([] : Row),
          loadedRanges := [⟨0, 9999⟩] } 9999 false ⟨[[], []], 10001⟩).allData.length =
      MAX_CACHED_ROWS) :=
  ⟨by
      rw [show ({ initialState with
            allData := List.replicate 9999 ([] : Row),
            loadedRanges := [⟨0, 9999⟩] } : GridState).allData =
          List.replicate 9999 ([] : Row) from rfl, List.length_replicate]
      norm_num [MAX_CACHED_ROWS],
    by norm_num [MAX_CACHED_ROWS],
    (C5_eviction
      { initialState with
        allData := List.replicate 9999 ([] : Row),
        loadedRanges := [⟨0, 9999⟩] } 9999 false ⟨[[], []], 10001⟩
      (by
        rw [show ({ initialState with
              allData := List.replicate 9999 ([] : Row),
              loadedRanges := [⟨0, 9999⟩] } : GridState).allData =
            List.replicate 9999 ([] : Row) from rfl, List.length_replicate]
        norm_num [MAX_CACHED_ROWS])
      (by norm_num [MAX_CACHED_ROWS])).2.1⟩

/-- `getD` on the left part of an append. -/
theorem getD_append_left {α : Type} (l1 l2 : List α) (j : Nat) (d : α)
    (hj : j < l1.length) : (l1 ++ l2).getD j d = l1.getD j d := by
  simp [List.getD, List.getElem?_append_left hj]

/-- `getD` on the right part of an append. -/
theorem getD_append_right {α : Type} (l1 l2 : List α) (j : Nat) (d : α)
    (hj : l1.length ≤ j) : (l1 ++ l2).getD j d = l2.getD (j - l1.length) d := by
  simp [List.getD, List.getElem?_append_right hj]

/-- Every input range of the merge loop is contained in some output range,
provided the input list is sorted by `start`. -/
theorem mergeLoop_covers (rest : List Rg) :
    ∀ last : Rg, List.Sorted rgLE (last :: rest) →
      ∀ r0 ∈ last :: rest, ∃ r ∈ mergeLoop last rest,
        r.start ≤ r0.start ∧ r0.stop ≤ r.stop := by
  induction rest with
  | nil =>
    intro last _ r0 hr0
    rcases List.mem_cons.mp hr0 with h | h
    · subst h
      exact ⟨r0, List.mem_cons_self _ _, le_refl _, le_refl _⟩
    · cases h
  | cons c t ih =>
    intro last hsorted r0 hr0
    have hparts := List.sorted_cons.mp hsorted
    have hlc : last.start ≤ c.start := hparts.1 c (List.mem_cons_self _ _)
    have hsorted2 : List.Sorted rgLE (c :: t) := hparts.2
    by_cases hcond : c.start ≤ last.stop + 1
    · have hmsorted : List.Sorted rgLE ((⟨last.start, max last.stop c.stop⟩ : Rg) :: t) := by
        rw [List.sorted_cons]
        exact ⟨fun b hb => hparts.1 b (List.mem_cons_of_mem _ hb),
          (List.sorted_cons.mp hsorted2).2⟩
      have hcover := ih ⟨last.start, max last.stop c.stop⟩ hmsorted
      have hout : mergeLoop last (c :: t) =
          mergeLoop ⟨last.start, max last.stop c.stop⟩ t := by
        simp [mergeLoop, hcond]
      rcases List.mem_cons.mp hr0 with h | h
      · subst h
        rcases hcover _ (List.mem_cons_self _ _) with ⟨r, hrmem, hrs, hre⟩
        exact ⟨r, by rw [hout]; exact hrmem, hrs, le_trans (le_max_left _ _) hre⟩
      rcases List.mem_cons.mp h with h2 | h2
      · subst h2
        rcases hcover _ (List.mem_cons_self _ _) with ⟨r, hrmem, hrs, hre⟩
        exact ⟨r, by rw [hout]; exact hrmem, le_trans hrs hlc,
          le_trans (le_max_right _ _) hre⟩
      · rcases hcover r0 (List.mem_cons_of_mem _ h2) with ⟨r2, hr2mem, hr2s, hr2e⟩
        exact ⟨r2, by rw [hout]; exact hr2mem, hr2s, hr2e⟩
    · have hout : mergeLoop last (c :: t) = last :: mergeLoop c t := by
        simp [mergeLoop, hcond]
      rcases List.mem_cons.mp hr0 with h | h
      · subst h
        exact ⟨r0, by rw [hout]; exact List.mem_cons_self _ _, le_refl _, le_refl _⟩
      · rcases ih c hsorted2 r0 h with ⟨r, hrmem, hrs, hre⟩
        exact ⟨r, by rw [hout]; exact List.mem_cons_of_mem _ hrmem, hrs, hre⟩

/-- Every input range of `mergeRanges` is contained in some output range. -/
theorem mergeRanges_covers (l : List Rg) (r0 : Rg) (h : r0 ∈ l) :
    ∃ r ∈ mergeRanges l, r.start ≤ r0.start ∧ r0.stop ≤ r.stop := by
  have hmem : r0 ∈ sortRanges l := ((List.perm_insertionSort rgLE l).mem_iff).mpr h
  have hsorted : List.Sorted rgLE (sortRanges l) := List.sorted_insertionSort rgLE l
  rcases hsr : sortRanges l with _ | ⟨hh, tt⟩
  · rw [hsr] at hmem
    cases hmem
  · rw [hsr] at hmem hsorted
    have hres := mergeLoop_covers tt hh hsorted r0 hmem
    simpa [mergeRanges, hsr] using hres

/-- Adding the exactly-contiguous next range `[a, a+b)` to the single tracked
range `[0, a)` merges to `[0, a+b)`. -/
theorem mergeRanges_contiguous (a b : Int) (ha : 0 ≤ a) (hb : 0 ≤ b) :
    mergeRanges [⟨0, a⟩, ⟨a, a + b⟩] = [⟨0, a + b⟩] := by
  have hsort : sortRanges [(⟨0, a⟩ : Rg), ⟨a, a + b⟩] = [⟨0, a⟩, ⟨a, a + b⟩] := by
    simp [sortRanges, List.insertionSort, List.orderedInsert, rgLE, ha]
  simp [mergeRanges, hsort, mergeLoop, show a ≤ a + 1 by omega,
    max_eq_right (by omega : a ≤ a + b)]

/-- C10: a fulfilled `fetchDataRange` (here below the eviction ceiling)
appends the received rows at the tail of the buffer, at indices
`[bufferLength, bufferLength + received.length)` regardless of the requested
offset, while the tracked range is recorded from the requested offset (so
`isLoaded(offset, received.length)` holds afterwards); consequently the
buffer-index-equals-server-offset correspondence is preserved exactly in the
contiguous regime where the tracked range is `[0, bufferLength)` and the
fetch offset equals the buffer length. -/
theorem C10_append_at_tail (s : GridState) (offset : Int) (isPf : Bool)
    (resp : FetchResponse) (server : Nat → Row)
    (hlen : s.allData.length + resp.data.length ≤ MAX_CACHED_ROWS) :
    (applyRangeFulfilled s offset isPf resp).allData = s.allData ++ resp.data ∧
    (∀ j, j < resp.data.length →
      (applyRangeFulfilled s offset isPf resp).allData.getD (s.allData.length + j) [] =
        resp.data.getD j []) ∧
    isRangeLoaded (applyRangeFulfilled s offset isPf resp).loadedRanges offset
      (resp.data.length : Int) = true ∧
    (s.loadedRanges = [⟨0, (s.allData.length : Int)⟩] →
      offset = (s.allData.length : Int) →
      (applyRangeFulfilled s offset isPf resp).loadedRanges =
        [⟨0, (s.allData.length : Int) + (resp.data.length : Int)⟩] ∧
      ((∀ j, j < s.allData.length → s.allData.getD j [] = server j) →
        (∀ j, j < resp.data.length → resp.data.getD j [] = server (s.allData.length + j)) →
        ∀ j, j < s.allData.length + resp.data.length →
          (applyRangeFulfilled s offset isPf resp).allData.getD j [] = server j)) := by
  have hguard : ¬(MAX_CACHED_ROWS < s.allData.length + resp.data.length) :=
    not_lt.mpr hlen
  have hall : (applyRangeFulfilled s offset isPf resp).allData = s.allData ++ resp.data := by
    cases isPf <;> simp [applyRangeFulfilled, List.length_append, hguard]
  have hrng : (applyRangeFulfilled s offset isPf resp).loadedRanges =
      mergeRanges (s.loadedRanges ++ [⟨offset, offset + (resp.data.length : Int)⟩]) := by
    cases isPf <;> simp [applyRangeFulfilled, List.length_append, hguard]
  refine ⟨hall, ?_, ?_, ?_⟩
  · intro j hj
    rw [hall, getD_append_right _ _ _ _ (Nat.le_add_right _ _)]
    simp
  · rw [hrng]
    have hmem : (⟨offset, offset + (resp.data.length : Int)⟩ : Rg) ∈
        s.loadedRanges ++ [⟨offset, offset + (resp.data.length : Int)⟩] :=
      List.mem_append_right _ (List.mem_cons_self _ _)
    rcases mergeRanges_covers _ _ hmem with ⟨r, hr, hrs, hre⟩
    refine List.any_eq_true.mpr ⟨r, hr, ?_⟩
    simp only [Bool.and_eq_true, decide_eq_true_eq]
    exact ⟨hrs, hre⟩
  · intro hlr hoff
    have hrng2 : (applyRangeFulfilled s offset isPf resp).loadedRanges =
        [⟨0, (s.allData.length : Int) + (resp.data.length : Int)⟩] := by
      rw [hrng, hlr, hoff]
      simpa using mergeRanges_contiguous (s.allData.length : Int) (resp.data.length : Int)
        (by positivity) (by positivity)
    refine ⟨hrng2, ?_⟩
    intro hold hnew j hj
    rw [hall]
    by_cases hcase : j < s.allData.length
    · rw [getD_append_left _ _ _ _ hcase]
      exact hold j hcase
    · have hle : s.allData.length ≤ j := Nat.le_of_not_lt hcase
      rw [getD_append_right _ _ _ _ hle]
      have hj2 : j - s.allData.length < resp.data.length := by omega
      have := hnew (j - s.allData.length) hj2
      rw [this]
      congr 1
      omega

/-- C10 witness: appending one row at offset 1 to a one-row contiguous
buffer. -/
theorem C10_append_at_tail_witness :
    (c6State.allData.length + (⟨[[Cell.num 3]], 2⟩ : FetchResponse).data.length ≤
      MAX_CACHED_ROWS) ∧
    ((applyRangeFulfilled c6State 1 false ⟨[[Cell.num 3]], 2⟩).allData =
        c6State.allData ++ [[Cell.num 3]] ∧
      (∀ j, j < (⟨[[Cell.num 3]], 2⟩ : FetchResponse).data.length →
        (applyRangeFulfilled c6State 1 false ⟨[[Cell.num 3]], 2⟩).allData.getD
            (c6State.allData.length + j) [] =
          (⟨[[Cell.num 3]], 2⟩ : FetchResponse).data.getD j []) ∧
      isRangeLoaded (applyRangeFulfilled c6State 1 false ⟨[[Cell.num 3]], 2⟩).loadedRanges 1
        ((⟨[[Cell.num 3]], 2⟩ : FetchResponse).data.length : Int) = true ∧
      (c6State.loadedRanges = [⟨0, (c6State.allData.length : Int)⟩] →
        (1 : Int) = (c6State.allData.length : Int) →
        (applyRangeFulfilled c6State 1 false ⟨[[Cell.num 3]], 2⟩).loadedRanges =
          [⟨0, (c6State.allData.length : Int) +
            ((⟨[[Cell.num 3]], 2⟩ : FetchResponse).data.length : Int)⟩] ∧
        ((∀ j, j < c6State.allData.length →
            c6State.allData.getD j [] = [[Cell.num 1, Cell.num 2], [Cell.num 3]].getD j []) →
          (∀ j, j < (⟨[[Cell.num 3]], 2⟩ : FetchResponse).data.length →
            (⟨[[Cell.num 3]], 2⟩ : FetchResponse).data.getD j [] =
              [[Cell.num 1, Cell.num 2], [Cell.num 3]].getD (c6State.allData.length + j) []) →
          ∀ j, j < c6State.allData.length + (⟨[[Cell.num 3]], 2⟩ : FetchResponse).data.length →
            (applyRangeFulfilled c6State 1 false ⟨[[Cell.num 3]], 2⟩).allData.getD j [] =
              [[Cell.num 1, Cell.num 2], [Cell.num 3]].getD j []))) :=
  ⟨by decide,
    C10_append_at_tail c6State 1 false ⟨[[Cell.num 3]], 2⟩
      (fun j => [[Cell.num 1, Cell.num 2], [Cell.num 3]].getD j []) (by decide)⟩

/-- Starting a request installs a fresh controller in its own scope slot. -/
theorem startReq_cur_self (st : SvcState) (sc : Scope) :
    (startReq st sc).cur sc = some st.nextId := by
  obtain ⟨n, ci, cp, cs, iss, ab, ap⟩ := st
  cases sc <;> (cases ci <;> cases cp <;> cases cs <;> rfl)

/-- Starting a request leaves the controller slots of other scopes alone. -/
theorem startReq_cur_other (st : SvcState) (sc sc2 : Scope) (h : sc2 ≠ sc) :
    (startReq st sc).cur sc2 = st.cur sc2 := by
  obtain ⟨n, ci, cp, cs, iss, ab, ap⟩ := st
  cases sc <;> cases sc2 <;>
    first
      | exact absurd rfl h
      | (cases ci <;> cases cp <;> cases cs <;> rfl)

/-- Starting a request increments the id counter. -/
theorem startReq_nextId (st : SvcState) (sc : Scope) :
    (startReq st sc).nextId = st.nextId + 1 := by
  obtain ⟨n, ci, cp, cs, iss, ab, ap⟩ := st
  cases sc <;> (cases ci <;> cases cp <;> cases cs <;> rfl)

/-- Starting a request aborts exactly the previous in-flight request of its
own scope (when there is one). -/
theorem startReq_mem_aborted (st : SvcState) (sc : Scope) (j : Nat) :
    j ∈ (startReq st sc).aborted ↔ j ∈ st.aborted ∨ st.cur sc = some j := by
  obtain ⟨n, ci, cp, cs, iss, ab, ap⟩ := st
  cases sc <;> cases ci <;> cases cp <;> cases cs <;>
    simp [startReq, SvcState.cur, SvcState.setCur, eq_comm]

/-- Completing a request never touches the controller slots, the aborted set,
or the id counter. -/
theorem completeReq_frame (st : SvcState) (i : Nat) :
    (∀ sc, (completeReq st i).cur sc = st.cur sc) ∧
    (completeReq st i).aborted = st.aborted ∧
    (completeReq st i).nextId = st.nextId := by
  unfold completeReq
  split <;> exact ⟨fun sc => by cases sc <;> rfl, rfl, rfl⟩

/-- A request whose scope sees no later `start` is never aborted by the
remaining trace. -/
theorem svc_no_abort (sc : Scope) (i : Nat) (post : List SvcEv) :
    ∀ st : SvcState, st.cur sc = some i → i ∉ st.aborted →
      (∀ sc2, sc2 ≠ sc → st.cur sc2 ≠ some i) →
      (∀ sc2 j, st.cur sc2 = some j → j < st.nextId) →
      (∀ j ∈ st.aborted, j < st.nextId) →
      (∀ e ∈ post, e ≠ SvcEv.start sc) →
      i ∉ (svcRun st post).aborted := by
  induction post with
  | nil =>
    intro st _ h2 _ _ _ _
    exact h2
  | cons e rest ih =>
    intro st h1 h2 h3 h4 h5 hpost
    have hrest : ∀ e2 ∈ rest, e2 ≠ SvcEv.start sc :=
      fun e2 he2 => hpost e2 (List.mem_cons_of_mem _ he2)
    cases e with
    | start sc2 =>
      have hne : sc2 ≠ sc := by
        intro hc
        exact hpost (SvcEv.start sc2) (List.mem_cons_self _ _) (by rw [hc])
      have hii : i < st.nextId := h4 sc i h1
      refine ih (startReq st sc2) ?_ ?_ ?_ ?_ ?_ hrest
      · rw [startReq_cur_other st sc2 sc (fun hc => hne hc.symm)]
        exact h1
      · rw [startReq_mem_aborted]
        rintro (hab | hcur)
        · exact h2 hab
        · exact h3 sc2 hne hcur
      · intro sc3 hsc3
        by_cases hsc32 : sc3 = sc2
        · subst hsc32
          rw [startReq_cur_self]
          intro hc
          have : st.nextId = i := by
            simpa using hc
          omega
        · rw [startReq_cur_other st sc2 sc3 hsc32]
          exact h3 sc3 hsc3
      · intro sc3 j hj
        rw [startReq_nextId]
        by_cases hsc32 : sc3 = sc2
        · subst hsc32
          rw [startReq_cur_self] at hj
          have : st.nextId = j := by simpa using hj
          omega
        · rw [startReq_cur_other st sc2 sc3 hsc32] at hj
          have := h4 sc3 j hj
          omega
      · intro j hj
        rw [startReq_nextId]
        rw [startReq_mem_aborted] at hj
        rcases hj with hab | hcur
        · have := h5 j hab
          omega
        · have := h4 sc2 j hcur
          omega
    | complete k =>
      obtain ⟨hfc, hfa, hfn⟩ := completeReq_frame st k
      refine ih (completeReq st k) ?_ ?_ ?_ ?_ ?_ hrest
      · rw [hfc]; exact h1
      · rw [hfa]; exact h2
      · intro sc2 hsc2
        rw [hfc]
        exact h3 sc2 hsc2
      · intro sc2 j hj
        rw [hfc] at hj
        rw [hfn]
        exact h4 sc2 j hj
      · intro j hj
        rw [hfa] at hj
        rw [hfn]
        exact h5 j hj

/-- C9: the three cancellation scopes are independent — a request is aborted
only by a later `start` of its own scope, so any request after which no
same-scope start occurs survives the whole trace; and in the concrete
scenario "start prefetch, start foreground, complete both", both responses
are applied. -/
theorem C9_scope_independence :
    (∀ (pre post : List SvcEv) (sc : Scope),
      (∀ e ∈ post, e ≠ SvcEv.start sc) →
      (svcRun svcInit pre).nextId ∉
        (svcRun svcInit (pre ++ SvcEv.start sc :: post)).aborted) ∧
    (svcRun svcInit
        [.start .prefetch, .start .initialQ, .complete 0, .complete 1]).applied =
      [0, 1] := by
  constructor
  · intro pre post sc hpost
    have hrw : svcRun svcInit (pre ++ SvcEv.start sc :: post) =
        svcRun (startReq (svcRun svcInit pre) sc) post := by
      simp [svcRun, List.foldl_append, svcStep]
    rw [hrw]
    have hb : (∀ sc2 j, (svcRun svcInit pre).cur sc2 = some j →
          j < (svcRun svcInit pre).nextId) ∧
        (∀ j ∈ (svcRun svcInit pre).aborted, j < (svcRun svcInit pre).nextId) := by
      have haux : ∀ (evs : List SvcEv) (st : SvcState),
          (∀ sc2 j, st.cur sc2 = some j → j < st.nextId) →
          (∀ j ∈ st.aborted, j < st.nextId) →
          (∀ sc2 j, (svcRun st evs).cur sc2 = some j → j < (svcRun st evs).nextId) ∧
            (∀ j ∈ (svcRun st evs).aborted, j < (svcRun st evs).nextId) := by
        intro evs
        induction evs with
        | nil => intro st hcur hab; exact ⟨hcur, hab⟩
        | cons e rest ih =>
          intro st hcur hab
          cases e with
          | start sc2 =>
            refine ih (startReq st sc2) ?_ ?_
            · intro sc3 j hj
              rw [startReq_nextId]
              by_cases hsc32 : sc3 = sc2
              · subst hsc32
                rw [startReq_cur_self] at hj
                have : st.nextId = j := by simpa using hj
                omega
              · rw [startReq_cur_other st sc2 sc3 hsc32] at hj
                have := hcur sc3 j hj
                omega
            · intro j hj
              rw [startReq_nextId]
              rw [startReq_mem_aborted] at hj
              rcases hj with h | h
              · have := hab j h
                omega
              · have := hcur sc2 j h
                omega
          | complete k =>
            obtain ⟨hfc, hfa, hfn⟩ := completeReq_frame st k
            refine ih (completeReq st k) ?_ ?_
            · intro sc3 j hj
              rw [hfc] at hj
              rw [hfn]
              exact hcur sc3 j hj
            · intro j hj
              rw [hfa] at hj
              rw [hfn]
              exact hab j hj
      refine haux pre svcInit ?_ ?_
      · intro sc2 j hj
        cases sc2 <;> simp [svcInit, SvcState.cur] at hj
      · intro j hj
        simp [svcInit] at hj
    have hii : (svcRun svcInit pre).nextId <
        (startReq (svcRun svcInit pre) sc).nextId := by
      rw [startReq_nextId]
      omega
    refine svc_no_abort sc (svcRun svcInit pre).nextId post
      (startReq (svcRun svcInit pre) sc) (startReq_cur_self _ _) ?_ ?_ ?_ ?_ hpost
    · rw [startReq_mem_aborted]
      rintro (hab | hcur)
      · have := hb.2 _ hab
        omega
      · have := hb.1 sc _ hcur
        omega
    · intro sc2 hsc2
      rw [startReq_cur_other _ sc sc2 hsc2]
      intro hc
      have := hb.1 sc2 _ hc
      omega
    · intro sc2 j hj
      rw [startReq_nextId]
      by_cases hsc2 : sc2 = sc
      · subst hsc2
        rw [startReq_cur_self] at hj
        have : (svcRun svcInit pre).nextId = j := by simpa using hj
        omega
      · rw [startReq_cur_other _ sc sc2 hsc2] at hj
        have := hb.1 sc2 j hj
        omega
    · intro j hj
      rw [startReq_nextId]
      rw [startReq_mem_aborted] at hj
      rcases hj with h | h
      · have := hb.2 j h
        omega
      · have := hb.1 sc j h
        omega
  · decide

/-- C9 witness: a prefetch started before a foreground start is not aborted
by it. -/
theorem C9_scope_independence_witness :
    (∀ e ∈ [SvcEv.start Scope.initialQ], e ≠ SvcEv.start Scope.prefetch) ∧
    (svcRun svcInit []).nextId ∉
      (svcRun svcInit
        ([] ++ SvcEv.start Scope.prefetch :: [SvcEv.start Scope.initialQ])).aborted :=
  ⟨by decide,
    C9_scope_independence.1 [] [SvcEv.start Scope.initialQ] Scope.prefetch (by decide)⟩

/-- Out of fuel, the scan loop stops. -/
theorem runsAux_zero (data : List Row) (spanning : List Nat) (c i s : Nat)
    (cur : Option Cell) : runsAux data spanning c 0 i s cur = [] := rfl

/-- One iteration of the scan loop. -/
theorem runsAux_succ (data : List Row) (spanning : List Nat) (c fuel i s : Nat)
    (cur : Option Cell) :
    runsAux data spanning c (fuel + 1) i s cur =
      if (if i < data.length then cellOpt data i c else some Cell.null) ≠ cur ∨
          checkPrevSpanningColumnsMatch data s i c spanning = false ∨
          i = data.length then
        (s, i - s, cur) ::
          runsAux data spanning c fuel (i + 1) i
            (if i < data.length then cellOpt data i c else some Cell.null)
      else runsAux data spanning c fuel (i + 1) s cur := rfl

/-- The parent-column check of the scan compares exactly the spanning columns
strictly left of `upToCol`. -/
theorem checkPrev_iff (data : List Row) (spanning : List Nat) (r1 r2 c : Nat) :
    checkPrevSpanningColumnsMatch data r1 r2 c spanning = true ↔
      ∀ cp ∈ spanning, cp < c → cellOpt data r1 cp = cellOpt data r2 cp := by
  unfold checkPrevSpanningColumnsMatch
  rw [List.all_eq_true]
  constructor
  · intro h cp hcp hlt
    have hb := h cp (List.mem_range.mpr hlt)
    have hc : spanning.contains cp = true := by simpa using hcp
    rw [if_pos hc] at hb
    exact of_decide_eq_true hb
  · intro h cp hcp
    by_cases hmem : cp ∈ spanning
    · have hc : spanning.contains cp = true := by simpa using hmem
      rw [if_pos hc]
      exact decide_eq_true (h cp hmem (List.mem_range.mp hcp))
    · have hc : ¬spanning.contains cp = true := by simpa using hmem
      rw [if_neg hc]

/-- `SameKey` is reflexive. -/
theorem sameKey_refl (data : List Row) (spanning : List Nat) (c r : Nat) :
    SameKey data spanning c r r := ⟨rfl, fun _ _ _ => rfl⟩

/-- `SameKey` is transitive through a shared middle row. -/
theorem sameKey_trans (data : List Row) (spanning : List Nat) (c r1 r2 r3 : Nat)
    (h1 : SameKey data spanning c r1 r2) (h2 : SameKey data spanning c r2 r3) :
    SameKey data spanning c r1 r3 :=
  ⟨h1.1.trans h2.1, fun cp hcp hlt => (h1.2 cp hcp hlt).trans (h2.2 cp hcp hlt)⟩

/-- The scan's break test (below the end of the buffer) decides exactly
`¬ SameKey` between the run start and the current row. -/
theorem breakCond_iff (data : List Row) (spanning : List Nat) (c i s : Nat)
    (hi : i < data.length) :
    ((if i < data.length then cellOpt data i c else some Cell.null) ≠ cellOpt data s c ∨
        checkPrevSpanningColumnsMatch data s i c spanning = false ∨
        i = data.length) ↔
      ¬ SameKey data spanning c s i := by
  rw [if_pos hi]
  constructor
  · rintro (hv | hp | hl)
    · exact fun hk => hv hk.1.symm
    · intro hk
      rw [(checkPrev_iff data spanning s i c).mpr hk.2] at hp
      cases hp
    · omega
  · intro hk
    by_cases hv : cellOpt data i c = cellOpt data s c
    · right
      left
      by_cases hp : checkPrevSpanningColumnsMatch data s i c spanning = true
      · exact absurd ⟨hv.symm, (checkPrev_iff data spanning s i c).mp hp⟩ hk
      · simpa using hp
    · exact Or.inl hv

/-- A partition's base never exceeds `len`. -/
theorem partition_base_le {len s : Nat} {runs : List (Nat × Nat × Option Cell)}
    (h : RunsPartition len s runs) : s ≤ len := by
  induction h with
  | nil => exact le_refl _
  | cons hn _ ih => omega

/-- Every run of a partition lies inside `[s, len)`. -/
theorem partition_run_bounds {len s : Nat} {runs : List (Nat × Nat × Option Cell)}
    (h : RunsPartition len s runs) :
    ∀ t ∈ runs, s ≤ t.1 ∧ t.1 + t.2.1 ≤ len := by
  induction h with
  | nil => intro t ht; cases ht
  | @cons s n v rest hn hrest ih =>
    intro t ht
    rcases List.mem_cons.mp ht with h1 | h1
    · subst h1
      have hb := partition_base_le hrest
      exact ⟨le_refl _, by dsimp only; omega⟩
    · have := ih t h1
      omega

/-- Two runs of a partition that contain the same row coincide. -/
theorem partition_run_unique {len s : Nat} {runs : List (Nat × Nat × Option Cell)}
    (h : RunsPartition len s runs) :
    ∀ t1 ∈ runs, ∀ t2 ∈ runs, ∀ r : Nat,
      t1.1 ≤ r → r < t1.1 + t1.2.1 → t2.1 ≤ r → r < t2.1 + t2.2.1 → t1 = t2 := by
  induction h with
  | nil => intro t1 ht1; cases ht1
  | @cons s n v rest hn hrest ih =>
    intro t1 ht1 t2 ht2 r h1a h1b h2a h2b
    rcases List.mem_cons.mp ht1 with he1 | he1 <;>
      rcases List.mem_cons.mp ht2 with he2 | he2
    · rw [he1, he2]
    · subst he1
      have := (partition_run_bounds hrest t2 he2).1
      dsimp only at h1a h1b
      omega
    · subst he2
      have := (partition_run_bounds hrest t1 he1).1
      dsimp only at h2a h2b
      omega
    · exact ih t1 he1 t2 he2 r h1a h1b h2a h2b

/-- Main invariant of the scan loop: started at row `i` with an open run
`[s, i)` of constant key, it partitions the remaining rows `[s, len)` into
runs, and every emitted run carries its start's value, has a constant key,
and is maximal on both sides. -/
theorem runsAux_spec (data : List Row) (spanning : List Nat) (c : Nat) :
    ∀ (fuel i s : Nat) (cur : Option Cell),
      fuel = data.length + 1 - i → 1 ≤ i → i ≤ data.length → s < i →
      cur = cellOpt data s c →
      (∀ j, s ≤ j → j < i → SameKey data spanning c s j) →
      (s = 0 ∨ ¬SameKey data spanning c (s - 1) s) →
      RunsPartition data.length s (runsAux data spanning c fuel i s cur) ∧
      ∀ t ∈ runsAux data spanning c fuel i s cur,
        t.2.2 = cellOpt data t.1 c ∧
        (∀ j, t.1 ≤ j → j < t.1 + t.2.1 → SameKey data spanning c t.1 j) ∧
        (t.1 = 0 ∨ ¬SameKey data spanning c (t.1 - 1) t.1) ∧
        (t.1 + t.2.1 = data.length ∨
          ¬SameKey data spanning c t.1 (t.1 + t.2.1)) := by
  intro fuel
  induction fuel with
  | zero =>
    intro i s cur hfuel h1i hile hsi hcur hconst hleft
    omega
  | succ fuel ih =>
    intro i s cur hfuel h1i hile hsi hcur hconst hleft
    subst hcur
    rw [runsAux_succ]
    by_cases hi : i = data.length
    · have hfz : fuel = 0 := by omega
      have hcond : (if i < data.length then cellOpt data i c else some Cell.null) ≠
          cellOpt data s c ∨
          checkPrevSpanningColumnsMatch data s i c spanning = false ∨
          i = data.length := Or.inr (Or.inr hi)
      rw [if_pos hcond, hfz, runsAux_zero]
      constructor
      · refine RunsPartition.cons (by omega) ?_
        have hrw : s + (i - s) = data.length := by omega
        rw [hrw]
        exact RunsPartition.nil
      · intro t ht
        rcases List.mem_cons.mp ht with h1 | h1
        · subst h1
          refine ⟨rfl, ?_, hleft, ?_⟩
          · intro j hj1 hj2
            dsimp only at hj1 hj2
            exact hconst j hj1 (by omega)
          · left
            dsimp only
            omega
        · cases h1
    · have hilt : i < data.length := by omega
      by_cases hsk : SameKey data spanning c s i
      · rw [if_neg (fun hc => ((breakCond_iff data spanning c i s hilt).mp hc) hsk)]
        refine ih (i + 1) s (cellOpt data s c) (by omega) (by omega) (by omega)
          (by omega) rfl ?_ hleft
        intro j hj1 hj2
        by_cases hj : j < i
        · exact hconst j hj1 hj
        · have hji : j = i := by omega
          subst hji
          exact hsk
      · have hcond := (breakCond_iff data spanning c i s hilt).mpr hsk
        rw [if_pos hcond, if_pos hilt]
        have hconst2 : ∀ j, i ≤ j → j < i + 1 → SameKey data spanning c i j := by
          intro j hj1 hj2
          have hji : j = i := by omega
          subst hji
          exact sameKey_refl data spanning c j
        have hleft2 : i = 0 ∨ ¬SameKey data spanning c (i - 1) i := by
          right
          intro hki
          have hsm : SameKey data spanning c s (i - 1) := hconst (i - 1) (by omega) (by omega)
          exact hsk (sameKey_trans data spanning c s (i - 1) i hsm hki)
        have hrec := ih (i + 1) i (cellOpt data i c) (by omega) (by omega) (by omega)
          (by omega) rfl hconst2 hleft2
        obtain ⟨hp, hm⟩ := hrec
        constructor
        · refine RunsPartition.cons (by omega) ?_
          have hrw : s + (i - s) = i := by omega
          rw [hrw]
          exact hp
        · intro t ht
          rcases List.mem_cons.mp ht with h1 | h1
          · subst h1
            refine ⟨rfl, ?_, hleft, ?_⟩
            · intro j hj1 hj2
              dsimp only at hj1 hj2
              exact hconst j hj1 (by omega)
            · right
              dsimp only
              have hrw : s + (i - s) = i := by omega
              rw [hrw]
              exact hsk
          · exact hm t h1

/-- `lookup` on a cons cell keyed by naturals. -/
theorem lookup_cons {β : Type} (k a : Nat) (b : β) (es : List (Nat × β)) :
    ((k, b) :: es).lookup a = if a = k then some b else es.lookup a := by
  by_cases h : a = k
  · simp [List.lookup, h]
  · have hb : (a == k) = false := beq_eq_false_iff_ne.mpr h
    simp [List.lookup, hb, h]

/-- `lookup` over an append tries the left list first. -/
theorem lookup_append {β : Type} (l1 l2 : List (Nat × β)) (a : Nat) :
    (l1 ++ l2).lookup a = (l1.lookup a).or (l2.lookup a) := by
  induction l1 with
  | nil => simp [List.lookup]
  | cons hd t ih =>
    obtain ⟨k, v⟩ := hd
    by_cases h : a = k
    · simp [List.lookup, h]
    · have hb : (a == k) = false := beq_eq_false_iff_ne.mpr h
      simp [List.lookup, hb, h, ih]

/-- `lookup` over a constant-value map of a row interval. -/
theorem lookup_range_map (g : GroupInfo) (n : Nat) :
    ∀ (s r : Nat), (((List.range' s n).map fun j => (j, g)).lookup r) =
      if s ≤ r ∧ r < s + n then some g else none := by
  induction n with
  | zero =>
    intro s r
    rw [if_neg (by omega)]
    rfl
  | succ n ih =>
    intro s r
    rw [List.range'_succ, List.map_cons, lookup_cons]
    by_cases hr : r = s
    · subst hr
      rw [if_pos rfl, if_pos (by omega)]
    · rw [if_neg hr, ih]
      by_cases h2 : s + 1 ≤ r ∧ r < s + 1 + n
      · rw [if_pos h2, if_pos (by omega)]
      · rw [if_neg h2, if_neg (by omega)]

/-- For a partition of `[s, len)`, looking up any row `r` of the interval in
the per-row entry list finds the (unique) run containing `r`. -/
theorem partition_lookup (len : Nat) {s : Nat} {runs : List (Nat × Nat × Option Cell)}
    (h : RunsPartition len s runs) :
    ∀ r, s ≤ r → r < len →
      ∃ t ∈ runs, t.1 ≤ r ∧ r < t.1 + t.2.1 ∧
        ((runs.flatMap fun t => (List.range' t.1 t.2.1).map fun j =>
            (j, (⟨t.2.2, t.1, t.2.1⟩ : GroupInfo))).lookup r) =
          some ⟨t.2.2, t.1, t.2.1⟩ := by
  induction h with
  | nil =>
    intro r hr1 hr2
    omega
  | @cons s n v rest hn hrest ih =>
    intro r hr1 hr2
    rw [List.flatMap_cons, lookup_append]
    dsimp only
    by_cases hcase : r < s + n
    · refine ⟨(s, n, v), List.mem_cons_self _ _, by dsimp only; omega,
        by dsimp only; omega, ?_⟩
      dsimp only
      rw [lookup_range_map, if_pos ⟨hr1, hcase⟩]
      rfl
    · have hle : s + n ≤ r := by omega
      rcases ih r hle hr2 with ⟨t, htmem, ht1, ht2, hlook⟩
      refine ⟨t, List.mem_cons_of_mem _ htmem, ht1, ht2, ?_⟩
      rw [lookup_range_map, if_neg (by omega)]
      simpa using hlook

/-- For a partition, the span-entry list (runs of length `> 1`) looks up a
start row to exactly the length of the unique run starting there, when that
run is longer than one row. -/
theorem partition_span_lookup (len : Nat) {s : Nat}
    {runs : List (Nat × Nat × Option Cell)} (h : RunsPartition len s runs) :
    ∀ (s0 n0 : Nat),
      ((runs.filterMap fun t =>
          if t.2.1 > 1 then some (t.1, t.2.1) else none).lookup s0 = some n0) ↔
        ∃ v, (s0, n0, v) ∈ runs ∧ 1 < n0 := by
  induction h with
  | nil =>
    intro s0 n0
    simp
  | @cons s n v rest hn hrest ih =>
    intro s0 n0
    by_cases h1 : n > 1
    · have hf : (fun (t : Nat × Nat × Option Cell) =>
          if t.2.1 > 1 then some (t.1, t.2.1) else none) (s, n, v) = some (s, n) := by
        dsimp only
        rw [if_pos h1]
      have hstep : (((s, n, v) :: rest).filterMap fun t =>
          if t.2.1 > 1 then some (t.1, t.2.1) else none) =
          (s, n) :: (rest.filterMap fun t =>
            if t.2.1 > 1 then some (t.1, t.2.1) else none) := by
        simp only [List.filterMap_cons]
        rw [if_pos h1]
      rw [hstep, lookup_cons]
      by_cases hs0 : s0 = s
      · subst hs0
        rw [if_pos rfl]
        constructor
        · intro hsome
          have hn0 : n0 = n := by
            have := hsome
            simp at this
            omega
          subst hn0
          exact ⟨v, List.mem_cons_self _ _, h1⟩
        · rintro ⟨v2, hmem, hn0⟩
          rcases List.mem_cons.mp hmem with he | he
          · obtain ⟨he2, _⟩ : n0 = n ∧ v2 = v := by
              simpa [Prod.ext_iff] using he
            rw [he2]
          · exfalso
            have := (partition_run_bounds hrest _ he).1
            dsimp only at this
            omega
      · rw [if_neg hs0, ih]
        constructor
        · rintro ⟨v2, hmem, hn0⟩
          exact ⟨v2, List.mem_cons_of_mem _ hmem, hn0⟩
        · rintro ⟨v2, hmem, hn0⟩
          rcases List.mem_cons.mp hmem with he | he
          · exfalso
            obtain ⟨he1, _, _⟩ : s0 = s ∧ n0 = n ∧ v2 = v := by
              simpa [Prod.ext_iff] using he
            exact hs0 he1
          · exact ⟨v2, he, hn0⟩
    · have hf : (fun (t : Nat × Nat × Option Cell) =>
          if t.2.1 > 1 then some (t.1, t.2.1) else none) (s, n, v) = none := by
        dsimp only
        rw [if_neg h1]
      have hstep : (((s, n, v) :: rest).filterMap fun t =>
          if t.2.1 > 1 then some (t.1, t.2.1) else none) =
          rest.filterMap fun t => if t.2.1 > 1 then some (t.1, t.2.1) else none := by
        simp only [List.filterMap_cons]
        rw [if_neg h1]
      rw [hstep, ih]
      constructor
      · rintro ⟨v2, hmem, hn0⟩
        exact ⟨v2, List.mem_cons_of_mem _ hmem, hn0⟩
      · rintro ⟨v2, hmem, hn0⟩
        rcases List.mem_cons.mp hmem with he | he
        · exfalso
          obtain ⟨_, he2, _⟩ : s0 = s ∧ n0 = n ∧ v2 = v := by
            simpa [Prod.ext_iff] using he
          omega
        · exact ⟨v2, he, hn0⟩

/-- Instantiation of the scan invariant at the loop's initialisation
(`groupStart = 0`, `currentValue = data[0]?.[c]`, `rowIndex = 1`). -/
theorem runsOf_spec (data : List Row) (spanning : List Nat) (c : Nat)
    (hne : data.length ≠ 0) :
    RunsPartition data.length 0 (runsOf data spanning c) ∧
    ∀ t ∈ runsOf data spanning c,
      t.2.2 = cellOpt data t.1 c ∧
      (∀ j, t.1 ≤ j → j < t.1 + t.2.1 → SameKey data spanning c t.1 j) ∧
      (t.1 = 0 ∨ ¬SameKey data spanning c (t.1 - 1) t.1) ∧
      (t.1 + t.2.1 = data.length ∨
        ¬SameKey data spanning c t.1 (t.1 + t.2.1)) := by
  unfold runsOf
  rw [if_neg hne]
  refine runsAux_spec data spanning c data.length 1 0 (cellOpt data 0 c)
    (by omega) (by omega) (by omega) (by omega) rfl ?_ (Or.inl rfl)
  intro j hj1 hj2
  have hj : j = 0 := by omega
  subst hj
  exact sameKey_refl data spanning c 0

/-- A successful `lookup` exhibits a member of the association list. -/
theorem lookup_mem {β : Type} :
    ∀ (l : List (Nat × β)) (a : Nat) (b : β), l.lookup a = some b → (a, b) ∈ l := by
  intro l
  induction l with
  | nil =>
    intro a b h
    simp [List.lookup] at h
  | cons hd t ih =>
    intro a b h
    obtain ⟨k, v⟩ := hd
    rw [lookup_cons] at h
    by_cases hk : a = k
    · subst hk
      rw [if_pos rfl] at h
      have hv : v = b := by simpa using h
      subst hv
      exact List.mem_cons_self _ _
    · rw [if_neg hk] at h
      exact List.mem_cons_of_mem _ (ih a b h)

/-- Under the guards of `useRowSpanning`, `getGroupInfo` is the lookup into
the per-column group entries. -/
theorem getGroupInfo_eq_lookup (data : List Row) (cols : List String)
    (dim c r : Nat) (hc : c ∈ spanningColIndices cols dim)
    (hlen : data.length ≠ 0) :
    getGroupInfo data cols dim r c =
      (groupEntriesCol data (spanningColIndices cols dim) c).lookup r := by
  have h1 : ¬(data.length = 0 ∨ spanningColIndices cols dim = []) := by
    rintro (h | h)
    · exact hlen h
    · rw [h] at hc
      cases hc
  have h2 : (spanningColIndices cols dim).contains c = true := by simpa using hc
  simp only [getGroupInfo]
  rw [if_neg h1, if_pos h2]

/-- C4: for every non-empty buffer and every groupable (spanning) column `c`,
every row is assigned a group entry `{value, startRow, rowCount}` describing
a maximal run of consecutive rows whose cells in `c` and in every spanning
column left of `c` are constant (`SameKey` — so a child run never crosses a
parent boundary); a span entry is recorded at a start row exactly for runs of
length greater than one; and an empty buffer or an empty groupable-column set
yields an empty span map. -/
theorem C4_parent_aware_grouping :
    (∀ (data : List Row) (cols : List String) (dim c r : Nat),
      c ∈ spanningColIndices cols dim → r < data.length →
      ∃ g, getGroupInfo data cols dim r c = some g ∧
        g.startRow ≤ r ∧ r < g.startRow + g.rowCount ∧
        g.startRow + g.rowCount ≤ data.length ∧ 1 ≤ g.rowCount ∧
        g.value = cellOpt data g.startRow c ∧
        (∀ j, g.startRow ≤ j → j < g.startRow + g.rowCount →
          SameKey data (spanningColIndices cols dim) c g.startRow j) ∧
        (g.startRow = 0 ∨
          ¬SameKey data (spanningColIndices cols dim) c (g.startRow - 1) g.startRow) ∧
        (g.startRow + g.rowCount = data.length ∨
          ¬SameKey data (spanningColIndices cols dim) c g.startRow
            (g.startRow + g.rowCount))) ∧
    (∀ (data : List Row) (cols : List String) (dim c s0 n : Nat),
      c ∈ spanningColIndices cols dim → data.length ≠ 0 →
      ((spanEntriesCol data (spanningColIndices cols dim) c).lookup s0 = some n ↔
        ∃ g, getGroupInfo data cols dim s0 c = some g ∧
          g.startRow = s0 ∧ g.rowCount = n ∧ 1 < n)) ∧
    (∀ (data : List Row) (cols : List String) (dim : Nat),
      data = [] ∨ spanningColIndices cols dim = [] →
      spanMapEntries data cols dim = []) := by
  refine ⟨?_, ?_, ?_⟩
  · intro data cols dim c r hc hr
    have hlen : data.length ≠ 0 := by omega
    obtain ⟨hp, hm⟩ := runsOf_spec data (spanningColIndices cols dim) c hlen
    obtain ⟨t, htm, ht1, ht2, hlook⟩ := partition_lookup data.length hp r (Nat.zero_le r) hr
    obtain ⟨hv, hconst, hleftm, hrightm⟩ := hm t htm
    have hbounds := partition_run_bounds hp t htm
    refine ⟨⟨t.2.2, t.1, t.2.1⟩, ?_, ht1, ht2, hbounds.2, by dsimp only; omega, hv,
      hconst, hleftm, hrightm⟩
    rw [getGroupInfo_eq_lookup data cols dim c r hc hlen]
    exact hlook
  · intro data cols dim c s0 n hc hne
    obtain ⟨hp, hm⟩ := runsOf_spec data (spanningColIndices cols dim) c hne
    have hspan := partition_span_lookup data.length hp s0 n
    unfold spanEntriesCol
    rw [hspan]
    constructor
    · rintro ⟨v, hmem, hn⟩
      have hbounds := partition_run_bounds hp _ hmem
      dsimp only at hbounds
      have hs0len : s0 < data.length := by omega
      obtain ⟨t, htm, ht1, ht2, hlook⟩ :=
        partition_lookup data.length hp s0 (Nat.zero_le s0) hs0len
      have hteq : t = (s0, n, v) :=
        partition_run_unique hp t htm (s0, n, v) hmem s0 ht1 ht2 (by dsimp only; omega)
          (by dsimp only; omega)
      refine ⟨⟨t.2.2, t.1, t.2.1⟩, ?_, ?_, ?_, hn⟩
      · rw [getGroupInfo_eq_lookup data cols dim c s0 hc hne]
        exact hlook
      · rw [hteq]
      · rw [hteq]
    · rintro ⟨g, hgg, hgs, hgn, hn⟩
      rw [getGroupInfo_eq_lookup data cols dim c s0 hc hne] at hgg
      have hmem := lookup_mem _ _ _ hgg
      rcases List.mem_flatMap.mp hmem with ⟨t, htm, hin⟩
      rcases List.mem_map.mp hin with ⟨j, hjr, hje⟩
      have hj1 : s0 = j ∧ g = ⟨t.2.2, t.1, t.2.1⟩ := by
        constructor
        · exact (congrArg Prod.fst hje).symm
        · exact (congrArg Prod.snd hje).symm
      obtain ⟨a, b, v⟩ := t
      have hstart : a = s0 := by
        have := congrArg GroupInfo.startRow hj1.2
        rw [hgs] at this
        exact this.symm
      have hcount : b = n := by
        have := congrArg GroupInfo.rowCount hj1.2
        rw [hgn] at this
        exact this.symm
      subst hstart hcount
      exact ⟨v, htm, hn⟩
  · intro data cols dim h
    rcases h with h | h <;> simp [spanMapEntries, h]

/-- C4 witness: the group entry of row 2, child column 1, in the spec's
nesting example — its run starts at row 2 (it does not merge with row 0's
equal value across the parent boundary). -/
theorem C4_parent_aware_grouping_witness :
    (1 ∈ spanningColIndices c4Cols 2) ∧ (2 < c4Data.length) ∧
    (∃ g, getGroupInfo c4Data c4Cols 2 2 1 = some g ∧
      g.startRow ≤ 2 ∧ 2 < g.startRow + g.rowCount ∧
      g.startRow + g.rowCount ≤ c4Data.length ∧ 1 ≤ g.rowCount ∧
      g.value = cellOpt c4Data g.startRow 1 ∧
      (∀ j, g.startRow ≤ j → j < g.startRow + g.rowCount →
        SameKey c4Data (spanningColIndices c4Cols 2) 1 g.startRow j) ∧
      (g.startRow = 0 ∨
        ¬SameKey c4Data (spanningColIndices c4Cols 2) 1 (g.startRow - 1) g.startRow) ∧
      (g.startRow + g.rowCount = c4Data.length ∨
        ¬SameKey c4Data (spanningColIndices c4Cols 2) 1 g.startRow
          (g.startRow + g.rowCount))) :=
  ⟨by decide, by decide,
    C4_parent_aware_grouping.1 c4Data c4Cols 2 1 2 (by decide) (by decide)⟩

/-- C8 counterexample: a `fetchDataRange` rejection whose cause is a real
failure (message `"boom"`, not `"Request cancelled"`) leaves the `error`
field unchanged (`none`): range-fetch rejections never update `error`. -/
theorem C8_counterexample :
    (applyRangeRejected initialState (some "boom")).error = none ∧
    initialState.error = none ∧ some "boom" ≠ some "Request cancelled" := by
  decide

end DataGrid
